import Mathlib

/-!
Verification of the NHS question-answering HTTP relay server
(`src/server/server.py`) against its natural-language specification.

The server is a Python 2 `SimpleHTTPServer` subclass whose `do_GET`:
  1. parses `self.path` with `urlparse.urlparse`;
  2. if the parsed path is `/answer`, extracts `parse_qs(query)["q"][0]`;
  3. launches the Java engine through `subprocess.Popen([...], shell=True)`,
     interpolating the query into a shell command string, and captures its
     standard output;
  4. replies `200` with `Content-type: text/json`, `Content-length`
     set to `len(output)`, and the captured output as the body.

This file shallowly embeds that pipeline: Python 2 byte strings are
modelled as Lean `String`s (with bodies also viewed as byte lists),
`urlparse` / `parse_qs` / `unquote` are translated from the CPython 2.7
standard-library sources that the handler calls, and the `/bin/sh`
word-splitting that `shell=True` applies to the command string is embedded
as an explicit tokenizer that refuses (returns `none` on) any construct
involving shell expansion or operators.
-/

set_option maxRecDepth 100000

namespace NHS

/-! ### Basic list splitting, after Python `str.split` / `str.find` -/

/-- Split a character list on every occurrence of `c`, like Python
`s.split(c)`: `"a&&b".split('&') == ['a','','b']` and `"".split('&') == ['']`. -/
def splitOnChar (c : Char) : List Char → List (List Char)
  | [] => [[]]
  | x :: xs =>
    if x = c then [] :: splitOnChar c xs
    else
      match splitOnChar c xs with
      | [] => [[x]]
      | p :: ps => (x :: p) :: ps

/-- Split a character list at the first occurrence of `c`, like Python
`s.split(c, 1)` (or `s.find(c)` followed by slicing): returns the parts
before and after that occurrence, or `none` when `c` does not occur. -/
def splitAtFirst (c : Char) : List Char → Option (List Char × List Char)
  | [] => none
  | x :: xs =>
    if x = c then some ([], xs)
    else (splitAtFirst c xs).map fun p => (x :: p.1, p.2)

/-- Split a character list at the last occurrence of `c` (Python `s.rfind(c)`
followed by slicing), or `none` when `c` does not occur. -/
def splitAtLast (c : Char) : List Char → Option (List Char × List Char)
  | [] => none
  | x :: xs =>
    match splitAtLast c xs with
    | some p => some (x :: p.1, p.2)
    | none => if x = c then some ([], xs) else none

/-! ### URL decoding, after Python 2.7 `urllib.unquote` -/

/-- Value of a hexadecimal digit, in either case (`urllib._hexdig`). -/
def hexDigitVal (c : Char) : Option Nat :=
  if '0' ≤ c ∧ c ≤ '9' then some (c.toNat - '0'.toNat)
  else if 'a' ≤ c ∧ c ≤ 'f' then some (c.toNat - 'a'.toNat + 10)
  else if 'A' ≤ c ∧ c ≤ 'F' then some (c.toNat - 'A'.toNat + 10)
  else none

/-- Percent-decoding worker; the fuel argument only funds the recursion and
is in practice the length of the list (each step consumes at least one
character), so it never runs out when starting from `unquoteL`. -/
def unquoteGo : Nat → List Char → List Char
  | 0, l => l
  | _ + 1, [] => []
  | fuel + 1, c :: rest =>
    if c = '%' then
      match rest with
      | c1 :: c2 :: rest2 =>
        match hexDigitVal c1, hexDigitVal c2 with
        | some hi, some lo => Char.ofNat (16 * hi + lo) :: unquoteGo fuel rest2
        | _, _ => '%' :: unquoteGo fuel (c1 :: c2 :: rest2)
      | _ => '%' :: unquoteGo fuel rest
    else c :: unquoteGo fuel rest

/-- Percent-decoding, after Python 2.7 `urllib.unquote`: a `%` followed by
two hexadecimal digits becomes the corresponding byte; any other `%` is
kept literally (CPython catches the `KeyError` from `_hextochr`). -/
def unquoteL (l : List Char) : List Char :=
  unquoteGo l.length l

/-- Query-string value decoding as done by `urlparse.parse_qsl`:
`value.replace('+', ' ')` followed by `unquote`. -/
def urlDecode (l : List Char) : List Char :=
  unquoteL (l.map fun c => if c = '+' then ' ' else c)

/-! ### Query-string parsing, after Python 2.7 `urlparse.parse_qs(l)` -/

/-- Name/value pair parsing after CPython 2.7 `urlparse.parse_qsl(qs)` with
the default `keep_blank_values=0`, `strict_parsing=0`: the string is split
on both `&` and `;`, empty fields and fields without `=` are skipped,
fields with an empty value are dropped, and names and values are decoded
with `+`-to-space followed by percent-decoding. -/
def parse_qsl (qs : String) : List (String × String) :=
  let pairs := (splitOnChar '&' qs.toList).flatMap (splitOnChar ';')
  pairs.filterMap fun nv =>
    if nv = [] then none
    else
      match splitAtFirst '=' nv with
      | none => none
      | some (n, v) =>
        if v = [] then none
        else some ((urlDecode n).asString, (urlDecode v).asString)

/-- The handler's query extraction `parse_qs(request.query)["q"][0]`:
the first `parse_qsl` value whose (decoded) name is `q`; `none` models the
`KeyError` raised when the dict lacks a `q` key. -/
def extractQuery (qs : String) : Option String :=
  ((parse_qsl qs).find? fun p => p.1 == "q").map Prod.snd

/-- Modelled from the spec (§4.2), for comparison with `extractQuery`:
"parses it as `key=value` pairs joined by `&`, URL-decoded. Requires a `q`
key to be present; takes the first value if multiple are supplied."
Fields without `=` are not `key=value` pairs and are skipped. -/
def specExtractQuery (qs : String) : Option String :=
  let pairs := (splitOnChar '&' qs.toList).filterMap fun nv =>
    match splitAtFirst '=' nv with
    | none => none
    | some (n, v) => some ((urlDecode n).asString, (urlDecode v).asString)
  (pairs.find? fun p => p.1 == "q").map Prod.snd

example : extractQuery "q=What%20is%20NHS" = some "What is NHS" := by decide
example : extractQuery "q=a;b" = some "a" := by decide
example : specExtractQuery "q=a;b" = some "a;b" := by decide
example : extractQuery "" = none := by decide
example : extractQuery "q=" = none := by decide
example : extractQuery "x=1&q=first&q=second" = some "first" := by decide
example : extractQuery "q=a%2Bb+c" = some "a+b c" := by decide

/-! ### URL parsing, after Python 2.7 `urlparse.urlparse` / `urlsplit` -/

/-- Characters allowed in a URL scheme (`urlparse.scheme_chars`). -/
def isSchemeChar (c : Char) : Bool :=
  c.isAlpha || c.isDigit || c = '+' || c = '-' || c = '.'

/-- Scheme detection of `urlsplit`: split at the first `:`; the part before
it becomes the (lowercased) scheme when it is exactly `http` (CPython's
fast path), or non-empty, all scheme characters, and the remainder is
empty or not all digits (the "not actually a port number" check). -/
def schemeSplit (url : List Char) : List Char × List Char :=
  match splitAtFirst ':' url with
  | none => ([], url)
  | some (before, after) =>
    if before = "http".toList then (before, after)
    else if before ≠ [] ∧ before.all isSchemeChar = true ∧
            (after = [] ∨ after.all Char.isDigit = false)
    then (before.map Char.toLower, after)
    else ([], url)

/-- `urlparse._splitnetloc` applied after the leading `//` has been removed:
the network location runs up to the first `/`, `?` or `#`. -/
def splitNetloc : List Char → List Char × List Char
  | [] => ([], [])
  | c :: cs =>
    if c = '/' ∨ c = '?' ∨ c = '#' then ([], c :: cs)
    else
      let p := splitNetloc cs
      (c :: p.1, p.2)

/-- The `Invalid IPv6 URL` check of `urlsplit`: a `[` without `]` (or vice
versa) in the network location raises `ValueError`. -/
def badIpv6 (nl : List Char) : Bool :=
  ('[' ∈ nl ∧ ']' ∉ nl) ∨ (']' ∈ nl ∧ '[' ∉ nl)

/-- Result of `urlsplit`/`urlparse` (`ParseResult` fields used here). -/
structure UrlParts where
  scheme : String
  netloc : String
  path : String
  params : String
  query : String
  fragment : String
deriving DecidableEq

/-- `urlparse.urlsplit(url)` with the default `allow_fragments=True`:
scheme split, then netloc after a leading `//` (with the IPv6 bracket
validity check, `none` modelling the `ValueError`), then the fragment
after the first `#`, then the query after the first `?` of what remains.
Returns `(scheme, netloc, path-with-params, query, fragment)`. -/
def urlsplitL (url : List Char) :
    Option (List Char × List Char × List Char × List Char × List Char) :=
  let sr := schemeSplit url
  let nlSplit : Option (List Char × List Char) :=
    if sr.2.take 2 = ['/', '/'] then
      let p := splitNetloc (sr.2.drop 2)
      if badIpv6 p.1 then none else some p
    else some ([], sr.2)
  match nlSplit with
  | none => none
  | some (nl, rest) =>
    let fs := match splitAtFirst '#' rest with
      | none => (rest, ([] : List Char))
      | some p => p
    let qs := match splitAtFirst '?' fs.1 with
      | none => (fs.1, ([] : List Char))
      | some p => p
    some (sr.1, nl, qs.1, qs.2, fs.2)

/-- The schemes for which `urlparse` strips parameters
(`urlparse.uses_params`); note that it contains the empty scheme. -/
def usesParams : List String :=
  ["ftp", "hdl", "prospero", "http", "imap", "https", "shttp", "rtsp",
   "rtspu", "sip", "sips", "mms", "", "sftp", "tel"]

/-- `urlparse._splitparams(url)`: parameters start at the first `;` at or
after the last `/` (or the first `;` when there is no `/`); returns the
path and parameter parts. -/
def splitparams (l : List Char) : List Char × List Char :=
  match splitAtLast '/' l with
  | some (pre, post) =>
    match splitAtFirst ';' post with
    | none => (l, [])
    | some (a, b) => (pre ++ '/' :: a, b)
  | none =>
    match splitAtFirst ';' l with
    | none => (l, [])
    | some (a, b) => (a, b)

/-- `urlparse.urlparse(url)`: `urlsplit`, then parameter stripping when the
scheme uses parameters and the path contains a `;`.  `none` models the
`ValueError` raised on an invalid IPv6 netloc. -/
def urlparse (url : String) : Option UrlParts :=
  match urlsplitL url.toList with
  | none => none
  | some (sch, nl, p, qy, fr) =>
    let pp := if sch.asString ∈ usesParams ∧ ';' ∈ p then splitparams p
              else (p, [])
    some ⟨sch.asString, nl.asString, pp.1.asString, pp.2.asString,
          qy.asString, fr.asString⟩

example : urlparse "/answer?q=What%20is%20NHS" =
    some ⟨"", "", "/answer", "", "q=What%20is%20NHS", ""⟩ := by decide
example : urlparse "/answer" = some ⟨"", "", "/answer", "", "", ""⟩ := by
  decide
example : urlparse "/foo?q=x" = some ⟨"", "", "/foo", "", "q=x", ""⟩ := by
  decide
example : urlparse "http://host/answer?q=x#frag" =
    some ⟨"http", "host", "/answer", "", "q=x", "frag"⟩ := by decide
example : urlparse "/answer;p=1?q=x" =
    some ⟨"", "", "/answer", "p=1", "q=x", ""⟩ := by decide
example : urlparse "//[bad" = none := by decide

/-! ### The engine command string built by `do_GET`

`subprocess.Popen([...], shell=True)` passes the single list element to
`/bin/sh -c`, so the query is interpolated into a shell command string. -/

/-- The fixed part of the shell command, up to and including the opening
double quote around the query (`'java ... -classpath ' + '"bin:..." ' +
'com... data/data.json data/stopwords.txt "%s"' % query`). -/
def cmdHead : String :=
  "java -Dfile.encoding=UTF-8 -classpath \"bin:lib/jsoup-1.9.2.jar:lib/json-simple-1.1.1.jar:lib/stanford-corenlp.jar\" com.mikhail_dubov.nhs.QuestionAnswerer data/data.json data/stopwords.txt \""

/-- The full shell command string handed to `Popen` for a given query. -/
def commandString (query : String) : String :=
  cmdHead ++ query ++ "\""

/-! ### POSIX shell word splitting, for `shell=True`

A minimal tokenizer for `/bin/sh -c <command>`: it produces the argument
vector for a simple command consisting only of plain words, and returns
`none` whenever the command involves anything beyond word splitting and
quote removal (operators such as `;`, `|`, `&`, redirections, globbing,
or `$`/backtick expansion), or is left with an unclosed quote. -/

/-- Tokenizer mode: normal text, inside double/single quotes, or just after
a backslash in normal/double-quote context. -/
inductive ShMode where
  | norm
  | dquo
  | squo
  | escNorm
  | escDquo
deriving DecidableEq

/-- Tokenizer state: current mode, characters of the word being built,
whether that word has started (so `""` yields an empty word), and the
completed words so far. -/
structure ShState where
  mode : ShMode
  cur : List Char
  started : Bool
  acc : List (List Char)
deriving DecidableEq

/-- Characters that make the command more than a plain word list when they
appear unquoted: control operators, redirections, globbing, and expansion
triggers. The tokenizer refuses them. -/
def shMeta (c : Char) : Bool :=
  c = ';' || c = '|' || c = '&' || c = '<' || c = '>' || c = '(' ||
  c = ')' || c = '$' || c = '`' || c = '\n' || c = '*' || c = '?' ||
  c = '['

/-- One character of shell tokenization. -/
def shStep (st : ShState) (c : Char) : Option ShState :=
  match st.mode with
  | .escNorm => some { st with mode := .norm, cur := st.cur ++ [c], started := true }
  | .escDquo =>
    if c = '$' ∨ c = '`' ∨ c = '"' ∨ c = '\\'
    then some { st with mode := .dquo, cur := st.cur ++ [c] }
    else some { st with mode := .dquo, cur := st.cur ++ ['\\', c] }
  | .squo =>
    if c = '\'' then some { st with mode := .norm }
    else some { st with cur := st.cur ++ [c] }
  | .dquo =>
    if c = '"' then some { st with mode := .norm }
    else if c = '\\' then some { st with mode := .escDquo }
    else if c = '$' ∨ c = '`' then none
    else some { st with cur := st.cur ++ [c] }
  | .norm =>
    if c = ' ' ∨ c = '\t' then
      if st.started
      then some { mode := .norm, cur := [], started := false, acc := st.acc ++ [st.cur] }
      else some st
    else if c = '"' then some { st with mode := .dquo, started := true }
    else if c = '\'' then some { st with mode := .squo, started := true }
    else if c = '\\' then some { st with mode := .escNorm }
    else if shMeta c then none
    else some { st with cur := st.cur ++ [c], started := true }

/-- Run the tokenizer over a character list. -/
def shRun : List Char → ShState → Option ShState
  | [], st => some st
  | c :: cs, st =>
    match shStep st c with
    | none => none
    | some st2 => shRun cs st2

/-- End of input: an unclosed quote or dangling backslash is refused; a
pending word is flushed. -/
def shFinish (st : ShState) : Option (List (List Char)) :=
  match st.mode with
  | .norm => some (if st.started then st.acc ++ [st.cur] else st.acc)
  | _ => none

/-- The initial tokenizer state. -/
def shInit : ShState := ⟨.norm, [], false, []⟩

/-- The argument vector `/bin/sh -c` builds for a plain-word command, or
`none` when the command involves shell interpretation beyond word
splitting and quote removal. -/
def shellWords (s : String) : Option (List String) :=
  match shRun s.toList shInit with
  | none => none
  | some st =>
    match shFinish st with
    | none => none
    | some ws => some (ws.map List.asString)

/-- The argument vector ahead of the query: the `java` executable, its
options, the engine class, and the two fixed file paths. The query is the
next argument — the third positional argument of the engine after the
data-file and stop-word-file paths. -/
def fixedArgv : List String :=
  ["java", "-Dfile.encoding=UTF-8", "-classpath",
   "bin:lib/jsoup-1.9.2.jar:lib/json-simple-1.1.1.jar:lib/stanford-corenlp.jar",
   "com.mikhail_dubov.nhs.QuestionAnswerer",
   "data/data.json", "data/stopwords.txt"]

example : shellWords (commandString "What is NHS") =
    some (fixedArgv ++ ["What is NHS"]) := by decide
example : shellWords (commandString "foo\" \"bar") =
    some (fixedArgv ++ ["foo", "bar"]) := by decide
example : shellWords (commandString "a`whoami`b") = none := by decide

/-! ### The request handler `AnswerRequestHandler.do_GET` -/

/-- What `Popen(...).communicate()` and `wait` observe of one child-process
run: the bytes captured from its standard output and its exit status.  A
failed `java` launch surfaces as the shell exiting `127` with empty
output; the handler reads only `communicate()[0]`, never the status. -/
structure EngineResult where
  output : List Nat
  exitCode : Int
deriving DecidableEq

/-- The HTTP response written back: `send_response(200)` (which also emits
the `Server` and `Date` headers), the two explicit headers, and the body
bytes written to `wfile` after `end_headers()`. -/
structure Response where
  status : Nat
  headers : List (String × String)
  body : List Nat
deriving DecidableEq

/-- Response framing of `do_GET` (lines 28–32 of `server.py`composed with
`send_response`): status 200; `Server` and `Date` from
`BaseHTTPRequestHandler.send_response`; `Content-type: text/json`;
`Content-length` set to `len(output)`; body exactly the captured output.
`serverVer` is `version_string()` and `date` is `date_time_string()`,
the wall-clock timestamp taken when the response is sent. -/
def respond (serverVer date : String) (output : List Nat) : Response :=
  { status := 200,
    headers := [("Server", serverVer), ("Date", date),
                ("Content-type", "text/json"),
                ("Content-length", toString output.length)],
    body := output }

/-- How one `do_GET` call ends: falling through without writing anything
(unrecognized path), an uncaught `KeyError` from `parse_qs(...)["q"]`
(nothing written, the in-flight request aborts), an uncaught `ValueError`
from `urlparse`, or a fully written response. -/
inductive Outcome where
  | noResponse
  | keyError
  | valueError
  | ok (resp : Response)
deriving DecidableEq

/-- Observable behavior of one `do_GET` call: whether the `/answer` branch
was entered, the shell command strings handed to `Popen` (one per engine
invocation), and how the call ended. -/
structure Trace where
  routedToAnswer : Bool
  invocations : List String
  outcome : Outcome
deriving DecidableEq

/-- Shallow embedding of `AnswerRequestHandler.do_GET`.  `selfPath` is
`self.path` (the request target from the GET request line); `engine` maps
a shell command string to the child-process run it produces, a parameter
because the child process is outside this core.  Mirrors the source:
urlparse, the `/answer` path test, `parse_qs(...)["q"][0]`,
`Popen(..., shell=True).communicate()[0]`, then the 200 response. -/
def do_GET (serverVer date selfPath : String)
    (engine : String → EngineResult) : Trace :=
  match urlparse selfPath with
  | none => ⟨false, [], .valueError⟩
  | some u =>
    if u.path = "/answer" then
      match extractQuery u.query with
      | none => ⟨true, [], .keyError⟩
      | some q =>
        let cmd := commandString q
        ⟨true, [cmd], .ok (respond serverVer date (engine cmd).output)⟩
    else ⟨false, [], .noResponse⟩

/-- A stub engine whose runs all succeed with empty output. -/
def engineEmpty : String → EngineResult := fun _ => ⟨[], 0⟩

example :
    do_GET "SV" "D" "/answer?q=hi" engineEmpty =
      ⟨true, [commandString "hi"], .ok (respond "SV" "D" [])⟩ := by decide
example :
    do_GET "SV" "D" "/foo?q=hi" engineEmpty = ⟨false, [], .noResponse⟩ := by
  decide
example :
    do_GET "SV" "D" "/answer" engineEmpty = ⟨true, [], .keyError⟩ := by decide

/-! ### Characters safe under every layer of the pipeline -/

/-- Alphanumeric/URL-safe characters (the unreserved set of RFC 3986):
these need no URL encoding, survive `parse_qs` decoding unchanged, and are
literal inside shell double quotes. -/
def isSafe (c : Char) : Bool :=
  c.isAlphanum || c = '-' || c = '_' || c = '.' || c = '~'

/-! ### Helper lemmas about strings and the splitters -/

theorem toList_append (s t : String) :
    (s ++ t).toList = s.toList ++ t.toList := by
  cases s
  cases t
  rfl

theorem asString_data (s : String) : s.data.asString = s := by
  cases s
  rfl

theorem asString_append (l1 l2 : List Char) :
    (l1 ++ l2).asString = l1.asString ++ l2.asString := rfl

theorem not_mem_of_all_safe {l : List Char} {c : Char}
    (h : l.all isSafe = true) (hc : isSafe c = false) : c ∉ l := by
  intro hmem
  have := List.all_eq_true.mp h c hmem
  rw [hc] at this
  exact Bool.false_ne_true this

theorem splitAtFirst_of_not_mem {c : Char} {l : List Char} (h : c ∉ l) :
    splitAtFirst c l = none := by
  induction l with
  | nil => rfl
  | cons x xs ih =>
    have hx : x ≠ c := fun e => h (e ▸ List.mem_cons_self x xs)
    have hxs : c ∉ xs := fun m => h (List.mem_cons_of_mem x m)
    simp [splitAtFirst, hx, ih hxs]

theorem splitAtFirst_append_left {c : Char} {l1 : List Char} {a b : List Char}
    (h : splitAtFirst c l1 = some (a, b)) (l2 : List Char) :
    splitAtFirst c (l1 ++ l2) = some (a, b ++ l2) := by
  induction l1 generalizing a b with
  | nil => simp [splitAtFirst] at h
  | cons x xs ih =>
    rw [List.cons_append]
    unfold splitAtFirst at h ⊢
    by_cases hx : x = c
    · rw [if_pos hx] at h ⊢
      obtain ⟨ha, hb⟩ := Prod.mk.injEq .. ▸ Option.some.inj h
      subst ha
      subst hb
      rfl
    · rw [if_neg hx] at h ⊢
      rcases hs : splitAtFirst c xs with _ | ⟨p1, p2⟩
      · rw [hs] at h
        simp at h
      · rw [hs] at h
        simp only [Option.map_some'] at h
        obtain ⟨ha, hb⟩ := Prod.mk.injEq .. ▸ Option.some.inj h
        rw [ih hs]
        simp only [Option.map_some']
        rw [← ha, ← hb]

theorem splitOnChar_of_not_mem {c : Char} {l : List Char} (h : c ∉ l) :
    splitOnChar c l = [l] := by
  induction l with
  | nil => rfl
  | cons x xs ih =>
    have hx : x ≠ c := fun e => h (e ▸ List.mem_cons_self x xs)
    have hxs : c ∉ xs := fun m => h (List.mem_cons_of_mem x m)
    simp [splitOnChar, hx, ih hxs]

theorem mem_of_mem_splitOnChar {c : Char} {l p : List Char} {x : Char}
    (hp : p ∈ splitOnChar c l) (hx : x ∈ p) : x ∈ l := by
  induction l generalizing p with
  | nil =>
    simp [splitOnChar] at hp
    subst hp
    simp at hx
  | cons y ys ih =>
    by_cases hy : y = c
    · simp [splitOnChar, hy] at hp
      rcases hp with hp | hp
      · subst hp; simp at hx
      · exact List.mem_cons_of_mem y (ih hp hx)
    · simp only [splitOnChar, if_neg hy] at hp
      rcases he : splitOnChar c ys with _ | ⟨q, qs⟩
      · rw [he] at hp
        simp at hp
        subst hp
        rcases List.mem_cons.mp hx with h1 | h1
        · exact h1 ▸ List.mem_cons_self y ys
        · simp at h1
      · rw [he] at hp
        rcases List.mem_cons.mp hp with h1 | h1
        · subst h1
          rcases List.mem_cons.mp hx with h2 | h2
          · exact h2 ▸ List.mem_cons_self y ys
          · exact List.mem_cons_of_mem y (ih (he ▸ List.mem_cons_self q qs) h2)
        · exact List.mem_cons_of_mem y (ih (he ▸ List.mem_cons_of_mem q h1) hx)

theorem unquoteGo_of_not_mem {l : List Char} {n : Nat}
    (h : '%' ∉ l) (hn : l.length ≤ n) : unquoteGo n l = l := by
  induction n generalizing l with
  | zero => rfl
  | succ m ih =>
    cases l with
    | nil => rfl
    | cons c rest =>
      have hc : c ≠ '%' := fun e => h (e ▸ List.mem_cons_self c rest)
      have hrest : '%' ∉ rest := fun hm => h (List.mem_cons_of_mem c hm)
      simp only [unquoteGo, if_neg hc]
      rw [ih hrest (Nat.le_of_succ_le_succ (by simpa using hn))]

theorem urlDecode_of_not_mem {l : List Char}
    (hp : '%' ∉ l) (hplus : '+' ∉ l) : urlDecode l = l := by
  have hmap : (l.map fun c => if c = '+' then ' ' else c) = l := by
    conv_rhs => rw [← List.map_id l]
    apply List.map_congr_left
    intro c hc
    have : c ≠ '+' := fun e => hplus (e ▸ hc)
    simp [this]
  unfold urlDecode unquoteL
  rw [hmap]
  exact unquoteGo_of_not_mem hp (Nat.le_refl _)

/-! ### Lemmas about the shell tokenizer -/

theorem shRun_append (l1 l2 : List Char) (st : ShState) :
    shRun (l1 ++ l2) st = (shRun l1 st).bind fun st2 => shRun l2 st2 := by
  induction l1 generalizing st with
  | nil => simp [shRun]
  | cons c cs ih =>
    simp only [List.cons_append, shRun]
    cases shStep st c with
    | none => rfl
    | some st2 => exact ih st2

theorem shRun_safe_dquo {l : List Char} (h : ∀ c ∈ l, isSafe c = true)
    (cur : List Char) (b : Bool) (acc : List (List Char)) :
    shRun l ⟨.dquo, cur, b, acc⟩ = some ⟨.dquo, cur ++ l, b, acc⟩ := by
  induction l generalizing cur with
  | nil => simp [shRun]
  | cons c cs ih =>
    have hc := h c (List.mem_cons_self c cs)
    have h1 : ¬ c = '"' := fun e => absurd (e ▸ hc) (by decide)
    have h2 : ¬ c = '\\' := fun e => absurd (e ▸ hc) (by decide)
    have h3 : ¬ (c = '$' ∨ c = '`') := by
      rintro (e | e) <;> exact absurd (e ▸ hc) (by decide)
    simp only [shRun, shStep]
    rw [if_neg h1, if_neg h2, if_neg h3]
    show shRun cs ⟨.dquo, cur ++ [c], b, acc⟩ = _
    rw [ih (fun d hd => h d (List.mem_cons_of_mem c hd)) (cur ++ [c])]
    simp

/-- The tokenizer state after the fixed head of the command: seven complete
words, inside the double quote that will hold the query. -/
def stAfterHead : ShState :=
  ⟨.dquo, [], true, fixedArgv.map String.toList⟩

theorem shRun_head : shRun cmdHead.toList shInit = some stAfterHead := by
  decide

/-- For a query made only of alphanumeric/URL-safe characters, the shell
parses the interpolated command into the fixed argument vector followed by
the query as one literal word. -/
theorem shellWords_safe (q : String) (h : q.toList.all isSafe = true) :
    shellWords (commandString q) = some (fixedArgv ++ [q]) := by
  have hl : (commandString q).toList = cmdHead.toList ++ (q.toList ++ ['"']) := by
    unfold commandString
    rw [toList_append, toList_append]
    simp
  unfold shellWords
  rw [hl, shRun_append, shRun_head, Option.some_bind, shRun_append]
  simp only [stAfterHead]
  rw [shRun_safe_dquo (fun c hc => List.all_eq_true.mp h c hc) [] true _,
      Option.some_bind]
  show (match shFinish ⟨.norm, [] ++ q.toList, true, fixedArgv.map String.toList⟩ with
        | none => none
        | some ws => some (ws.map List.asString)) = _
  simp [shFinish, List.map_append, List.map_map, asString_data,
        show List.asString ∘ String.toList = id from funext String.asString_toList]

example : shellWords (commandString "NHS-query_0.x~") =
    some (fixedArgv ++ ["NHS-query_0.x~"]) :=
  shellWords_safe "NHS-query_0.x~" (by decide)

/-! ### The pipeline on a well-formed `/answer?q=Q` request -/

theorem extractQuery_safe (q : String) (h : q.toList.all isSafe = true)
    (hne : q.toList ≠ []) : extractQuery ("q=" ++ q) = some q := by
  have hql : ("q=" ++ q).toList = 'q' :: '=' :: q.toList := by
    rw [toList_append]
    rfl
  have hsafe : ∀ c : Char, isSafe c = false → c ≠ 'q' → c ≠ '=' →
      c ∉ ("q=" ++ q).toList := by
    intro c hc hq1 hq2 hmem
    rw [hql] at hmem
    simp only [List.mem_cons] at hmem
    rcases hmem with rfl | rfl | hmem
    · exact hq1 rfl
    · exact hq2 rfl
    · exact not_mem_of_all_safe h hc hmem
  have hamp : splitOnChar '&' ("q=" ++ q).toList = [("q=" ++ q).toList] :=
    splitOnChar_of_not_mem (hsafe '&' (by decide) (by decide) (by decide))
  have hsemi : splitOnChar ';' ("q=" ++ q).toList = [("q=" ++ q).toList] :=
    splitOnChar_of_not_mem (hsafe ';' (by decide) (by decide) (by decide))
  have heq : splitAtFirst '=' ("q=" ++ q).toList = some (['q'], q.toList) := by
    rw [hql]
    simp [splitAtFirst]
  unfold extractQuery parse_qsl
  rw [hamp]
  simp only [List.flatMap_cons, List.flatMap_nil, List.append_nil, hsemi]
  simp only [List.filterMap_cons, heq]
  rw [if_neg (by rw [hql]; simp), if_neg hne]
  have hdec : urlDecode q.toList = q.toList :=
    urlDecode_of_not_mem
      (fun m => hsafe '%' (by decide) (by decide) (by decide)
        (hql ▸ List.mem_cons_of_mem _ (List.mem_cons_of_mem _ m)))
      (fun m => hsafe '+' (by decide) (by decide) (by decide)
        (hql ▸ List.mem_cons_of_mem _ (List.mem_cons_of_mem _ m)))
  rw [hdec, String.asString_toList,
      show (urlDecode ['q']).asString = "q" by decide]
  simp [List.find?]

theorem urlparse_answer_safe (q : String) (h : q.toList.all isSafe = true) :
    urlparse ("/answer?q=" ++ q) =
      some ⟨"", "", "/answer", "", "q=" ++ q, ""⟩ := by
  have hql : ("/answer?q=" ++ q).toList = "/answer?q=".toList ++ q.toList :=
    toList_append _ _
  have hsafe : ∀ c : Char, isSafe c = false → c ∉ "/answer?q=".toList → c ∉ ("/answer?q=" ++ q).toList := by
    intro c hc hpre hmem
    rw [hql] at hmem
    rcases List.mem_append.mp hmem with hm | hm
    · exact hpre hm
    · exact not_mem_of_all_safe h hc hm
  have hcolon : splitAtFirst ':' ("/answer?q=" ++ q).toList = none :=
    splitAtFirst_of_not_mem (hsafe ':' (by decide) (by decide))
  have hhash : splitAtFirst '#' ("/answer?q=" ++ q).toList = none :=
    splitAtFirst_of_not_mem (hsafe '#' (by decide) (by decide))
  have hqm : splitAtFirst '?' ("/answer?q=" ++ q).toList =
      some ("/answer".toList, "q=".toList ++ q.toList) := by
    rw [hql]
    exact splitAtFirst_append_left (by decide) q.toList
  have htake : ("/answer?q=" ++ q).toList.take 2 = ['/', 'a'] := by
    rw [hql]
    rfl
  unfold urlparse urlsplitL schemeSplit
  rw [hcolon]
  simp only [htake]
  rw [if_neg (by decide)]
  simp only [hhash, hqm]
  rw [if_neg (by decide)]
  have hq2 : ('q' :: '=' :: q.data).asString = "q=" ++ q := by
    rw [show ('q' :: '=' :: q.data) = "q=".toList ++ q.toList from rfl,
        asString_append, String.asString_toList, String.asString_toList]
  simp [hq2, show ([] : List Char).asString = "" from rfl,
        show ['/', 'a', 'n', 's', 'w', 'e', 'r'].asString = "/answer" from rfl]

/-! ### Helper lemmas about the handler -/

theorem do_GET_ok_elim {sv d p : String} {e : String → EngineResult}
    {r : Response} (h : (do_GET sv d p e).outcome = .ok r) :
    ∃ u q, urlparse p = some u ∧ u.path = "/answer" ∧
      extractQuery u.query = some q ∧
      r = respond sv d (e (commandString q)).output := by
  rcases hu : urlparse p with _ | u
  · simp [do_GET, hu] at h
  · by_cases hp : u.path = "/answer"
    · rcases hq : extractQuery u.query with _ | qv
      · simp [do_GET, hu, hp, hq] at h
      · simp [do_GET, hu, hp, hq] at h
        exact ⟨u, qv, rfl, hp, hq, h.symm⟩
    · simp [do_GET, hu, hp] at h

theorem do_GET_engine_congr {e1 e2 : String → EngineResult}
    (h : ∀ c, (e1 c).output = (e2 c).output) (sv d p : String) :
    do_GET sv d p e1 = do_GET sv d p e2 := by
  rcases hu : urlparse p with _ | u
  · simp [do_GET, hu]
  · by_cases hp : u.path = "/answer"
    · rcases hq : extractQuery u.query with _ | q
      · simp [do_GET, hu, hp, hq]
      · simp [do_GET, hu, hp, hq, h (commandString q)]
    · simp [do_GET, hu, hp]

/-! ### The claims -/

/-- Claim C1: for every captured engine output buffer `B`, the response
carries a `Content-length` header equal to the exact byte length of `B`,
and the bytes written after the headers are exactly `B` (no truncation, no
padding); moreover every response the handler actually writes declares a
`Content-length` equal to the exact length of its own body. -/
theorem content_length_matches_body :
    (∀ (sv d : String) (B : List Nat),
      (respond sv d B).headers.lookup "Content-length"
        = some (toString B.length)
      ∧ (respond sv d B).body = B)
    ∧ ∀ (sv d p : String) (e : String → EngineResult) (r : Response),
        (do_GET sv d p e).outcome = .ok r →
        r.headers.lookup "Content-length" = some (toString r.body.length) := by
  constructor
  · intro sv d B
    exact ⟨rfl, rfl⟩
  · intro sv d p e r h
    obtain ⟨u, q, _, _, _, hr⟩ := do_GET_ok_elim h
    rw [hr]
    rfl

theorem content_length_matches_body_witness :
    (respond "SV" "D" ([] : List Nat)).headers.lookup "Content-length"
      = some (toString ([] : List Nat).length) :=
  content_length_matches_body.2 "SV" "D" "/answer?q=hi" engineEmpty
    (respond "SV" "D" []) (by decide)

/-- Claim C2: on every recognized request (parsed path exactly `/answer`
with an extractable `q`), exactly one engine invocation occurs, and the
full captured output of that invocation becomes the entire response body,
with no transformation, filtering, or validation applied. -/
theorem single_invocation_full_relay (sv d p : String)
    (e : String → EngineResult) (u : UrlParts) (q : String)
    (hu : urlparse p = some u) (hp : u.path = "/answer")
    (hq : extractQuery u.query = some q) :
    do_GET sv d p e =
      ⟨true, [commandString q],
       .ok (respond sv d (e (commandString q)).output)⟩ := by
  simp [do_GET, hu, hp, hq]

theorem single_invocation_full_relay_witness :
    do_GET "SV" "D" "/answer?q=hi" engineEmpty =
      ⟨true, [commandString "hi"],
       .ok (respond "SV" "D" (engineEmpty (commandString "hi")).output)⟩ :=
  single_invocation_full_relay "SV" "D" "/answer?q=hi" engineEmpty
    ⟨"", "", "/answer", "", "q=hi", ""⟩ "hi" (by decide) rfl (by decide)

/-- Claim C3 is violated by the code (the spec itself flags this as a
required fix): because the query is interpolated into a `shell=True`
command string, a query containing shell metacharacters does NOT reach the
child process as a single argument. Witness: the query `foo" "bar`
(requested as `q=foo%22%20%22bar`) reaches the child as the two arguments
`foo` and `bar` after shell word splitting. -/
theorem shell_splits_metachar_query :
    extractQuery "q=foo%22%20%22bar" = some "foo\" \"bar"
    ∧ shellWords (commandString "foo\" \"bar")
        = some (fixedArgv ++ ["foo", "bar"])
    ∧ fixedArgv ++ ["foo", "bar"] ≠ fixedArgv ++ ["foo\" \"bar"] :=
  ⟨by decide, by decide, by decide⟩

/-- Claim C4: for every non-empty query `Q` of only alphanumeric/URL-safe
characters, a request to `/answer?q=Q` hands `Popen` exactly the command
for `Q`, and the shell parses that command into the fixed argument vector
(`java`, its options, the engine class, the data-file path, the
stop-word-file path) followed by `Q` as one literal, unmangled word — the
third positional argument of the engine after the two fixed paths. -/
theorem safe_query_single_argument (sv d q : String)
    (e : String → EngineResult) (h : q.toList.all isSafe = true)
    (hne : q ≠ "") :
    (do_GET sv d ("/answer?q=" ++ q) e).invocations = [commandString q]
    ∧ shellWords (commandString q) = some (fixedArgv ++ [q]) := by
  have hne2 : q.toList ≠ [] := by
    intro h0
    apply hne
    cases q with
    | mk data =>
      show String.mk data = ""
      rw [show data = [] from h0]
  constructor
  · simp [do_GET, urlparse_answer_safe q h, extractQuery_safe q h hne2]
  · exact shellWords_safe q h

theorem safe_query_single_argument_witness :
    (do_GET "SV" "D" ("/answer?q=" ++ "NHS") engineEmpty).invocations
      = [commandString "NHS"]
    ∧ shellWords (commandString "NHS") = some (fixedArgv ++ ["NHS"]) :=
  safe_query_single_argument "SV" "D" "NHS" engineEmpty (by decide) (by decide)

/-- Claim C5: on a request whose parsed path is `/answer` but whose query
string yields no `q` key, extraction fails with the `KeyError`
(MissingParameter) fault, which aborts the in-flight request unhandled: no
engine invocation occurs and no response is written. -/
theorem missing_q_key_faults (sv d p : String) (e : String → EngineResult)
    (u : UrlParts) (hu : urlparse p = some u) (hp : u.path = "/answer")
    (hq : extractQuery u.query = none) :
    do_GET sv d p e = ⟨true, [], .keyError⟩ := by
  simp [do_GET, hu, hp, hq]

theorem missing_q_key_faults_witness :
    do_GET "SV" "D" "/answer" engineEmpty = ⟨true, [], .keyError⟩ :=
  missing_q_key_faults "SV" "D" "/answer" engineEmpty
    ⟨"", "", "/answer", "", "", ""⟩ (by decide) rfl (by decide)

/-- A stub engine whose runs model a failed `java` launch under
`shell=True`: the shell exits with status 127 and no standard output is
captured. -/
def engineFail : String → EngineResult := fun _ => ⟨[], 127⟩

/-- Claim C6: a child process that fails to launch or exits non-zero is
not distinguished by the handler — the handler's behavior depends only on
the captured output bytes, never on the exit status, so such a failure
surfaces only as an empty or partial buffer relayed in an otherwise normal
response, and every written response has status 200. -/
theorem engine_failure_not_distinguished (sv d p : String)
    (e1 e2 : String → EngineResult)
    (h : ∀ c, (e1 c).output = (e2 c).output) :
    do_GET sv d p e1 = do_GET sv d p e2
    ∧ ∀ r : Response, (do_GET sv d p e1).outcome = .ok r → r.status = 200 := by
  refine ⟨do_GET_engine_congr h sv d p, fun r hr => ?_⟩
  obtain ⟨u, q, _, _, _, hresp⟩ := do_GET_ok_elim hr
  rw [hresp]
  rfl

theorem engine_failure_not_distinguished_witness :
    do_GET "SV" "D" "/answer?q=hi" engineFail
      = do_GET "SV" "D" "/answer?q=hi" engineEmpty
    ∧ ∀ r : Response,
        (do_GET "SV" "D" "/answer?q=hi" engineFail).outcome = .ok r →
        r.status = 200 :=
  engine_failure_not_distinguished "SV" "D" "/answer?q=hi"
    engineFail engineEmpty (fun _ => rfl)

/-- Claim C7: the Query Extractor / Engine Invoker branch is entered if
and only if the parsed request path equals exactly `/answer`; on a GET to
any other (parseable) path the handler writes nothing — no status line, no
headers, no body, no invocation — and returns. -/
theorem routing_iff_answer_path (sv d p : String) (e : String → EngineResult)
    (u : UrlParts) (hu : urlparse p = some u) :
    ((do_GET sv d p e).routedToAnswer = true ↔ u.path = "/answer")
    ∧ (u.path ≠ "/answer" → do_GET sv d p e = ⟨false, [], .noResponse⟩) := by
  have hother : u.path ≠ "/answer" →
      do_GET sv d p e = ⟨false, [], .noResponse⟩ := by
    intro hp
    simp [do_GET, hu, hp]
  have htrace : u.path = "/answer" →
      (do_GET sv d p e).routedToAnswer = true := by
    intro hp
    rcases hq : extractQuery u.query with _ | q <;> simp [do_GET, hu, hp, hq]
  refine ⟨⟨fun hr => ?_, htrace⟩, hother⟩
  by_contra hp
  rw [hother hp] at hr
  exact absurd hr (by decide)

theorem routing_iff_answer_path_witness :
    do_GET "SV" "D" "/foo?q=hi" engineEmpty = ⟨false, [], .noResponse⟩ :=
  (routing_iff_answer_path "SV" "D" "/foo?q=hi" engineEmpty
    ⟨"", "", "/foo", "", "q=hi", ""⟩ (by decide)).2 (by decide)

/-- Claim C8 fails on the code at the query string `q=a;b`: CPython's
`parse_qs` splits on `;` in addition to `&`, so the extractor yields `a`,
while parsing `key=value` pairs joined by `&` alone (the claim's reading,
embodied by `specExtractQuery`) yields `a;b`. -/
theorem semicolon_split_cex :
    extractQuery "q=a;b" = some "a"
    ∧ specExtractQuery "q=a;b" = some "a;b"
    ∧ extractQuery "q=a;b" ≠ specExtractQuery "q=a;b" :=
  ⟨by decide, by decide, by decide⟩

/-- Claim C8 as amended: the extractor also splits on `;` and drops pairs
with an empty value (and fields without `=`); on every raw query string
containing no `;` and no empty-valued pair it behaves exactly as the claim
states — it parses `key=value` pairs joined by `&`, URL-decodes them
(`+` as space, then percent-decoding), and yields the first value of `q`
when multiple are supplied. -/
theorem extract_first_q_amended (qs : String)
    (hsemi : ';' ∉ qs.toList)
    (hval : (splitOnChar '&' qs.toList).all
      (fun p => match splitAtFirst '=' p with
        | none => true
        | some nv => !nv.2.isEmpty) = true) :
    extractQuery qs = specExtractQuery qs := by
  have hflat : ∀ l : List (List Char), (∀ p ∈ l, ';' ∉ p) →
      l.flatMap (splitOnChar ';') = l := by
    intro l
    induction l with
    | nil => intro _; rfl
    | cons p ps ih =>
      intro hl
      rw [List.flatMap_cons,
          splitOnChar_of_not_mem (hl p (List.mem_cons_self p ps)),
          ih (fun x hx => hl x (List.mem_cons_of_mem p hx))]
      rfl
  have hnos : ∀ p ∈ splitOnChar '&' qs.toList, ';' ∉ p :=
    fun p hp hc => hsemi (mem_of_mem_splitOnChar hp hc)
  unfold extractQuery specExtractQuery parse_qsl
  rw [hflat _ hnos]
  refine congrArg (Option.map Prod.snd)
    (congrArg (List.find? fun p : String × String => p.1 == "q")
      (List.filterMap_congr ?_))
  intro p hp
  dsimp only
  by_cases hp0 : p = []
  · subst hp0
    rfl
  · rw [if_neg hp0]
    rcases he : splitAtFirst '=' p with _ | ⟨n, v⟩
    · rfl
    · have hv := List.all_eq_true.mp hval p hp
      rw [he] at hv
      dsimp only at hv
      simp only [Bool.not_eq_true'] at hv
      have hvne : v ≠ [] := by
        intro h0
        rw [h0] at hv
        simp at hv
      dsimp only
      rw [if_neg hvne]

theorem extract_first_q_amended_witness :
    extractQuery "q=hello&x=1" = specExtractQuery "q=hello&x=1" :=
  extract_first_q_amended "q=hello&x=1" (by decide) (by decide)

/-- The exact byte stream the spec's concrete scenario programs the
stubbed collaborator to emit. -/
def jsonOut : List Nat :=
  "\x7b\"answer\":\"National Health Service\"\x7d".toList.map Char.toNat

/-- A stub engine emitting the scenario's JSON answer with exit status 0. -/
def nhsEngine : String → EngineResult := fun _ => ⟨jsonOut, 0⟩

/-- Claim C9 fails on the code at its own concrete scenario: the emitted
body `{"answer":"National Health Service"}` is 36 bytes, so the handler
declares `Content-length: 36`, not the `Content-Length: 33` the claim
states. -/
theorem scenario_content_length_cex :
    jsonOut.length = 36
    ∧ (do_GET "SV" "D" "/answer?q=What%20is%20NHS" nhsEngine).outcome
        = .ok (respond "SV" "D" jsonOut)
    ∧ (respond "SV" "D" jsonOut).headers.lookup "Content-length" = some "36"
    ∧ (respond "SV" "D" jsonOut).headers.lookup "Content-length" ≠ some "33" :=
  ⟨by decide, by decide, by decide, by decide⟩

/-- Claim C9 as amended: on `GET /answer?q=What%20is%20NHS` with the
collaborator emitting `{"answer":"National Health Service"}`, the handler
invokes the engine once for the query `What is NHS` and writes a status
200 response with `Content-type: text/json`, `Content-length: 36` (the
exact byte count of the emitted stream), and a body exactly equal to that
stream. -/
theorem scenario_amended :
    do_GET "SV" "D" "/answer?q=What%20is%20NHS" nhsEngine =
      ⟨true, [commandString "What is NHS"],
       .ok ⟨200, [("Server", "SV"), ("Date", "D"),
                  ("Content-type", "text/json"),
                  ("Content-length", "36")], jsonOut⟩⟩ := by
  decide

/-- Claim C10 fails on the code as stated: `send_response(200)` emits a
`Date` header read from the wall clock, so two executions on the identical
request with identical child output, run at different times, write
different response bytes. -/
theorem date_header_nondet_cex :
    do_GET "SV" "Thu, 01 Jan 1970 00:00:00 GMT" "/answer?q=hi" engineEmpty
      ≠ do_GET "SV" "Thu, 01 Jan 1970 00:00:01 GMT" "/answer?q=hi" engineEmpty := by
  decide

/-- Claim C10 as amended: two executions of the handler on identical
request paths/query strings whose child processes produce identical output
byte streams write byte-for-byte identical responses, provided the
`Server` version string and the wall-clock `Date` header value are the
same — beyond that timestamp, the handler introduces no nondeterminism. -/
theorem determinism_amended (sv d p1 p2 : String)
    (e1 e2 : String → EngineResult) (hp : p1 = p2)
    (he : ∀ c, (e1 c).output = (e2 c).output) :
    do_GET sv d p1 e1 = do_GET sv d p2 e2 := by
  subst hp
  exact do_GET_engine_congr he sv d p1

theorem determinism_amended_witness :
    do_GET "SV" "D" "/answer?q=hi" engineEmpty
      = do_GET "SV" "D" "/answer?q=hi" engineEmpty :=
  determinism_amended "SV" "D" "/answer?q=hi" "/answer?q=hi"
    engineEmpty engineEmpty rfl (fun _ => rfl)

end NHS
